import Mathlib

/-!
SplineScene: responsive geometry and branding suppression.

A shallow embedding of `src/components/SplineScene.jsx`.

* Numbers are exact rationals (`ℚ`); the literals `0.8` and `0.45` denote `4/5` and `9/20`.
* The DOM subtree under `containerRef.current` is a rose tree of text nodes and elements.
  An element carries the values of the properties the component reads or writes:
  `tagName` (lower case), `href`, `src`, `alt` and `style.cssText`.  A property that is
  `undefined` on an element is the empty string: every read in the source is guarded by a
  truthiness test, which does not separate `undefined` from `''`.
* An element is identified by its path of child indices from the container.
* `querySelectorAll` returns a static list of paths in document order, `forEach` is a left fold
  over the DOM state.
-/

set_option maxRecDepth 8000

namespace SplineScene

/-! ## Definitions -/

/-- The method `s.includes(pat)`: `pat` occurs in `s` as a contiguous substring. -/
def includes (s pat : String) : Bool := decide (pat.data <:+: s.data)

/-- The disjunction `a || b` on strings: the empty string is the only falsy string. -/
def strOr (a b : String) : String := if a = "" then b else a

/-- Truthiness of a string. -/
def truthy (a : String) : Bool := a ≠ ""

/-- A DOM node: a text node, or an element with its children. -/
inductive Node where
  | text (data : String)
  | elem (tag href src alt cssText : String) (children : List Node)
  deriving Repr

/-- A path of child indices, from the container down to a node. -/
abbrev Path := List Nat

def Node.isElem : Node → Bool
  | .text _ => false
  | .elem _ _ _ _ _ _ => true

def Node.tag : Node → String
  | .text _ => ""
  | .elem t _ _ _ _ _ => t

def Node.href : Node → String
  | .text _ => ""
  | .elem _ h _ _ _ _ => h

def Node.src : Node → String
  | .text _ => ""
  | .elem _ _ s _ _ _ => s

def Node.alt : Node → String
  | .text _ => ""
  | .elem _ _ _ a _ _ => a

def Node.cssText : Node → String
  | .text _ => ""
  | .elem _ _ _ _ c _ => c

def Node.children : Node → List Node
  | .text _ => []
  | .elem _ _ _ _ _ cs => cs

mutual
/-- The property `node.textContent`: the data of all descendant text nodes, concatenated in
document order. -/
def Node.textContent : Node → String
  | .text d => d
  | .elem _ _ _ _ _ cs => textContentList cs
/-- The concatenated `textContent` of a list of siblings. -/
def textContentList : List Node → String
  | [] => ""
  | c :: cs => c.textContent ++ textContentList cs
end

/-- The node at a path below `n`, if there is one. -/
def Node.get? : Node → Path → Option Node
  | n, [] => some n
  | n, i :: p =>
    match n.children[i]? with
    | some c => c.get? p
    | none => none

/-- The assignment `el.style.cssText = css` to the element at path `p`. -/
def Node.setCssText : Node → Path → String → Node
  | .text d, _, _ => .text d
  | .elem t h s a _ cs, [], css => .elem t h s a css cs
  | .elem t h s a st cs, i :: p, css =>
    match cs[i]? with
    | some c => .elem t h s a st (cs.set i (c.setCssText p css))
    | none => .elem t h s a st cs

mutual
/-- Paths of all elements strictly below a node, in document order. -/
def Node.descendants : Node → List Path
  | .text _ => []
  | .elem _ _ _ _ _ cs => descendantsFrom 0 cs
/-- Paths of the elements in and below the siblings `cs`, the first of which has index `i`. -/
def descendantsFrom : Nat → List Node → List Path
  | _, [] => []
  | i, c :: cs =>
    (if c.isElem then [[i]] else []) ++ (c.descendants.map (fun p => i :: p))
      ++ descendantsFrom (i + 1) cs
end

/-- The call `container.querySelectorAll(sel)` for a selector that is a list of tag names: the
elements strictly below the container whose tag is listed, in document order. -/
def querySelectorAll (container : Node) (sel : List String) : List Path :=
  container.descendants.filter fun p =>
    match container.get? p with
    | some n => sel.contains n.tag
    | none => false

/-- Read a string property of the element at path `p` (empty when there is none). -/
def prop (f : Node → String) (dom : Node) (p : Path) : String :=
  match dom.get? p with
  | some n => f n
  | none => ""

/-- Style written by the link pass. -/
def linkStyle : String :=
  "display:none!important;opacity:0!important;visibility:hidden!important;width:0!important;height:0!important;overflow:hidden!important;position:absolute!important;"

/-- Style written by the text pass. -/
def textStyle : String :=
  "display:none!important;opacity:0!important;visibility:hidden!important;"

/-- Style written by the image pass. -/
def imgStyle : String := "display:none!important;"

/-- Test of the link pass: `link.href && link.href.includes('spline')`. -/
def linkTest (dom : Node) (link : Path) : Bool :=
  truthy (prop Node.href dom link) && includes (prop Node.href dom link) "spline"

/-- Test of the text pass: with `text = el.textContent || el.alt || ''`,
`text.includes('Built with') || text.includes('Spline')`. -/
def textTest (dom : Node) (el : Path) : Bool :=
  let text := strOr (strOr (prop Node.textContent dom el) (prop Node.alt dom el)) ""
  includes text "Built with" || includes text "Spline"

/-- Test of the image pass:
`(img.src && img.src.includes('spline')) || (img.alt && img.alt.includes('Spline'))`. -/
def imgTest (dom : Node) (img : Path) : Bool :=
  (truthy (prop Node.src dom img) && includes (prop Node.src dom img) "spline")
    || (truthy (prop Node.alt dom img) && includes (prop Node.alt dom img) "Spline")

/-- The body of `hideWatermark` on a bound container: three `querySelectorAll` / `forEach`
passes, each of which overwrites `style.cssText` of the elements its test accepts. -/
def hideWatermark (container : Node) : Node :=
  let links := querySelectorAll container ["a"]
  let dom1 := links.foldl
    (fun dom link => if linkTest dom link then dom.setCssText link linkStyle else dom) container
  let allElements := querySelectorAll dom1 ["div", "span", "p", "a", "img"]
  let dom2 := allElements.foldl
    (fun dom el => if textTest dom el then dom.setCssText el textStyle else dom) dom1
  let images := querySelectorAll dom2 ["img"]
  images.foldl
    (fun dom img => if imgTest dom img then dom.setCssText img imgStyle else dom) dom2

/-- The inline style of the element at path `p`; `none` when `p` is not an element. -/
def styleAt (dom : Node) (p : Path) : Option String :=
  match dom.get? p with
  | some (.elem _ _ _ _ st _) => some st
  | _ => none

/-! ### Views of the sweep used in the statements -/

mutual
/-- The node with every inline style erased: what the sweep cannot change. -/
def Node.strip : Node → Node
  | .text d => .text d
  | .elem t h s a _ cs => .elem t h s a "" (stripList cs)
/-- Siblings with every inline style erased. -/
def stripList : List Node → List Node
  | [] => []
  | c :: cs => c.strip :: stripList cs
end

/-- A `forEach` pass that assigns `css` to the listed elements accepted by `test`. -/
def forEachStyle (test : Node → Path → Bool) (css : String) (ps : List Path) (dom : Node) :
    Node :=
  ps.foldl (fun d p => if test d p then d.setCssText p css else d) dom

/-- The anchor test on an element: selected by `'a'` and accepted by the link pass. -/
def matchesLink (n : Node) : Bool :=
  n.tag = "a" && (truthy n.href && includes n.href "spline")

/-- The text test on an element: selected by `'div, span, p, a, img'` and accepted by the text
pass. -/
def matchesText (n : Node) : Bool :=
  ["div", "span", "p", "a", "img"].contains n.tag
    && (includes (strOr (strOr n.textContent n.alt) "") "Built with"
      || includes (strOr (strOr n.textContent n.alt) "") "Spline")

/-- The image test on an element: selected by `'img'` and accepted by the image pass. -/
def matchesImg (n : Node) : Bool :=
  n.tag = "img" && ((truthy n.src && includes n.src "spline")
    || (truthy n.alt && includes n.alt "Spline"))

/-- The style an element strictly inside the container has after the three passes: the last pass
that accepts it decides. -/
def finalStyle (n : Node) : String :=
  if matchesImg n then imgStyle
  else if matchesText n then textStyle
  else if matchesLink n then linkStyle
  else n.cssText

/-! ### Component state and lifecycle -/

/-- A pending `setTimeout(hideWatermark, delay)`. -/
structure Timer where
  id : Nat
  delay : Nat
  deriving DecidableEq, Repr

/-- The closure returned by the loaded-effect: it captures the three timer handles (and the
observer, of which there is one). -/
structure Cleanup where
  timer1 : Nat
  timer2 : Nat
  timer3 : Nat
  deriving DecidableEq, Repr

/-- The state of one mounted `SplineScene`, with the part of the browser it acquires. -/
structure State where
  /-- The state `useState(false)`. -/
  loaded : Bool
  /-- The state `useState(1)`. -/
  widthMultiplier : ℚ
  /-- The state `useState(1)`. -/
  visualScale : ℚ
  /-- The element `containerRef.current`, with the subtree below it. -/
  container : Option Node
  /-- Timers that are scheduled and neither fired nor cleared. -/
  timers : List Timer
  /-- The handle the next `setTimeout` returns. -/
  nextTimer : Nat
  /-- The effect's `MutationObserver` is connected. -/
  observing : Bool
  /-- The cleanup the last run of the loaded-effect returned, kept until it is run. -/
  cleanup : Option Cleanup
  /-- The component is mounted: its resize listener is registered, its state accepts updates. -/
  mounted : Bool
  /-- Ghost counter: how often `hideWatermark` has been invoked. -/
  calls : Nat

/-- The resize handler. -/
def computeDimensions (vw : ℚ) (s : State) : State :=
  if vw ≥ 1024 then
    { s with widthMultiplier := 1, visualScale := 1 }
  else
    let t := (1024 - max vw 320) / (1024 - 320)
    { s with widthMultiplier := 1 + t * 0.8, visualScale := 1 - t * 0.45 }

/-- Reference definition of the two factors, as the specification words it. -/
def specDimensions (vw : ℚ) : ℚ × ℚ :=
  if vw ≥ 1024 then (1, 1)
  else
    let t := (1024 - max vw 320) / (1024 - 320)
    (1 + 0.8 * t, 1 - 0.45 * t)

/-- The closure `hideWatermark` as a callback on the state: it returns at once when the
container is not bound. -/
def runHideWatermark (s : State) : State :=
  match s.container with
  | none => { s with calls := s.calls + 1 }
  | some c => { s with container := some (hideWatermark c), calls := s.calls + 1 }

/-- The call `setTimeout(hideWatermark, delay)`: the new state and the handle. -/
def setTimeout (delay : Nat) (s : State) : State × Nat :=
  ({ s with timers := s.timers ++ [⟨s.nextTimer, delay⟩], nextTimer := s.nextTimer + 1 },
    s.nextTimer)

/-- The call `clearTimeout(id)`. -/
def clearTimeout (id : Nat) (s : State) : State :=
  { s with timers := s.timers.filter fun t => t.id ≠ id }

/-- The body of the loaded-effect: the new state and the cleanup it returns. -/
def loadedEffect (s : State) : State × Option Cleanup :=
  if !s.loaded || s.container.isNone then (s, none)
  else
    let s0 := runHideWatermark s
    let (s1, timer1) := setTimeout 1000 s0
    let (s2, timer2) := setTimeout 3000 s1
    let (s3, timer3) := setTimeout 5000 s2
    ({ s3 with observing := true }, some ⟨timer1, timer2, timer3⟩)

/-- The cleanup closure of the loaded-effect. -/
def Cleanup.run (c : Cleanup) (s : State) : State :=
  { clearTimeout c.timer3 (clearTimeout c.timer2 (clearTimeout c.timer1 s)) with
    observing := false }

/-- Run the cleanup that is due, if there is one. -/
def runCleanup (s : State) : State :=
  match s.cleanup with
  | none => s
  | some c => { c.run s with cleanup := none }

/-- The loaded-effect as the framework runs it when `loaded` has changed: the previous cleanup,
then the body, whose cleanup is kept. -/
def rerunLoadedEffect (s : State) : State :=
  let r := loadedEffect (runCleanup s)
  { r.1 with cleanup := r.2 }

/-- What can happen to a component. -/
inductive Event where
  /-- The renderer calls `onLoad`. -/
  | load
  /-- The window is resized to inner width `vw`. -/
  | resize (vw : ℚ)
  /-- The timer with this handle is due. -/
  | timeout (id : Nat)
  /-- The child list of the subtree changes; `dom` is the container afterwards. -/
  | mutation (dom : Node)
  /-- The component is unmounted. -/
  | unmount

/-- The state of the first render: the three `useState` initial values, the container bound,
nothing acquired. -/
def fresh (container : Option Node) : State :=
  { loaded := false, widthMultiplier := 1, visualScale := 1, container := container,
    timers := [], nextTimer := 0, observing := false, cleanup := none, mounted := true,
    calls := 0 }

/-- The state after mounting on a container at inner width `vw`: the first render, then both
effects. -/
def mount (container : Option Node) (vw : ℚ) : State :=
  rerunLoadedEffect (computeDimensions vw (fresh container))

/-- One event. A pending timer may fire at any time: delays are not modelled. -/
def step (s : State) : Event → State
  | .load =>
    if s.mounted && !s.loaded then rerunLoadedEffect { s with loaded := true } else s
  | .resize vw => if s.mounted then computeDimensions vw s else s
  | .timeout id =>
    if s.timers.any (fun t => t.id = id) then
      runHideWatermark { s with timers := s.timers.filter fun t => t.id ≠ id }
    else s
  | .mutation dom =>
    let s' := { s with container := s.container.map fun _ => dom }
    if s.observing then runHideWatermark s' else s'
  | .unmount => { runCleanup s with mounted := false, container := none }

/-- A sequence of events. -/
def run (s : State) (es : List Event) : State := es.foldl step s

/-- What an event does to the container when no sweep runs. -/
def external (c : Option Node) : Event → Option Node
  | .mutation dom => c.map fun _ => dom
  | .unmount => none
  | _ => c

/-! ### Sample containers and invariants -/

/-- A container with an image whose alt text names the vendor in lower case. -/
def lowerCaseAltDom : Node :=
  .elem "div" "" "" "" "" [.elem "img" "" "/logo.png" "made with spline" "" []]

/-- A container with a button that carries the marker text. -/
def buttonDom : Node :=
  .elem "div" "" "" "" "" [.elem "button" "" "" "" "" [.text "Built with Spline"]]

/-- The vendor's watermark: a link to the vendor with the branding text. -/
def watermarkDom : Node :=
  .elem "div" "" "" "" ""
    [.elem "a" "https://spline.design" "" "" "" [.text "Built with Spline"]]

/-- A container with an image served by the vendor. -/
def vendorImageDom : Node :=
  .elem "div" "" "" "" "" [.elem "img" "" "https://prod.spline.design/logo.png" "" "" []]

/-- A container with the loading spinner and the vendor's watermark link. -/
def spinnerDom : Node :=
  .elem "div" "" "" "" ""
    [.elem "div" "" "" "" "color:red" [.text "Loading 3D"],
     .elem "a" "https://spline.design" "" "" "" [.text "Built with Spline"]]

/-- A watermark whose text sits two levels below a div that also holds other content. -/
def nestedDom : Node :=
  .elem "section" "" "" "" ""
    [.elem "div" "" "" "" ""
      [.elem "canvas" "" "" "" "" [],
       .elem "span" "" "" "" "" [.elem "b" "" "" "" "" [.text "Built with Spline"]]]]

/-- Between the effect and its cleanup: every pending timer is one of the cleanup's three; once
the cleanup has run nothing is pending and the observer is disconnected. -/
def Acquired (s : State) : Prop :=
  s.loaded = true ∧
    match s.cleanup with
    | some c => ∀ t ∈ s.timers, t.id = c.timer1 ∨ t.id = c.timer2 ∨ t.id = c.timer3
    | none => s.timers = [] ∧ s.observing = false

/-- After the cleanup: nothing is pending, the observer is disconnected. -/
def Released (s : State) : Prop :=
  s.loaded = true ∧ s.timers = [] ∧ s.observing = false

/-- A component whose state says loaded, before the loaded-effect has run. -/
def loadedState : State := { fresh (some watermarkDom) with loaded := true }

/-! ## Theorems -/

theorem stripList_eq_map (cs : List Node) : stripList cs = cs.map Node.strip := by
  induction cs with
  | nil => rfl
  | cons c cs ih => simp [stripList, ih]

theorem textContentList_append (as bs : List Node) :
    textContentList (as ++ bs) = textContentList as ++ textContentList bs := by
  induction as with
  | nil => simp [textContentList]
  | cons a as ih => simp [textContentList, ih, String.append_assoc]

mutual
theorem Node.textContent_strip : ∀ n : Node, n.strip.textContent = n.textContent
  | .text d => rfl
  | .elem _ _ _ _ _ cs => by
    simp only [Node.strip, Node.textContent]
    exact textContentList_strip cs
theorem textContentList_strip : ∀ cs : List Node, textContentList (stripList cs) = textContentList cs
  | [] => rfl
  | c :: cs => by
    simp only [stripList, textContentList]
    rw [Node.textContent_strip c, textContentList_strip cs]
end

mutual
theorem Node.descendants_strip : ∀ n : Node, n.strip.descendants = n.descendants
  | .text d => rfl
  | .elem _ _ _ _ _ cs => by
    simp only [Node.strip, Node.descendants]
    exact descendantsFrom_strip 0 cs
theorem descendantsFrom_strip : ∀ (i : Nat) (cs : List Node),
    descendantsFrom i (stripList cs) = descendantsFrom i cs
  | _, [] => rfl
  | i, c :: cs => by
    simp only [stripList, descendantsFrom]
    rw [Node.descendants_strip c, descendantsFrom_strip (i + 1) cs]
    cases c <;> rfl
end

theorem Node.get?_strip (p : Path) : ∀ n : Node, n.strip.get? p = (n.get? p).map Node.strip := by
  induction p with
  | nil => intro n; rfl
  | cons i p ih =>
    intro n
    cases n with
    | text d => simp [Node.strip, Node.get?, Node.children]
    | elem t h s a st cs =>
      simp only [Node.strip, Node.get?, Node.children, stripList_eq_map, List.getElem?_map]
      cases hc : cs[i]? with
      | none => simp
      | some c => simp [ih c]

theorem Node.strip_setCssText (p : Path) : ∀ (n : Node) (css : String),
    (n.setCssText p css).strip = n.strip := by
  induction p with
  | nil => intro n css; cases n <;> rfl
  | cons i p ih =>
    intro n css
    cases n with
    | text d => rfl
    | elem t h s a st cs =>
      simp only [Node.setCssText]
      cases hc : cs[i]? with
      | none => rfl
      | some c =>
        simp only [Node.strip, stripList_eq_map, List.map_set, ih c css]
        congr 1
        apply List.ext_getElem? 
        intro j
        by_cases hj : i = j
        · subst hj
          rw [List.getElem?_set]
          simp [hc]
          obtain ⟨h, _⟩ := List.getElem?_eq_some.mp hc
          exact h
        · rw [List.getElem?_set_ne hj]

theorem Node.tag_strip (n : Node) : n.strip.tag = n.tag := by cases n <;> rfl

theorem Node.href_strip (n : Node) : n.strip.href = n.href := by cases n <;> rfl

theorem Node.src_strip (n : Node) : n.strip.src = n.src := by cases n <;> rfl

theorem Node.alt_strip (n : Node) : n.strip.alt = n.alt := by cases n <;> rfl

theorem Node.isElem_strip (n : Node) : n.strip.isElem = n.isElem := by cases n <;> rfl

theorem get?_map_of_strip_eq {α : Type} (f : Node → α) (hf : ∀ n, f n.strip = f n)
    {a b : Node} (h : a.strip = b.strip) (p : Path) :
    (a.get? p).map f = (b.get? p).map f := by
  have ha := Node.get?_strip p a
  have hb := Node.get?_strip p b
  rw [h] at ha
  rw [hb] at ha
  cases hx : a.get? p with
  | none =>
    rw [hx] at ha
    cases hy : b.get? p with
    | none => rfl
    | some y => rw [hy] at ha; simp at ha
  | some x =>
    rw [hx] at ha
    cases hy : b.get? p with
    | none => rw [hy] at ha; simp at ha
    | some y =>
      rw [hy] at ha
      simp only [Option.map_some', Option.some.injEq] at ha ⊢
      rw [← hf x, ← hf y, ha]

theorem prop_of_strip_eq (f : Node → String) (hf : ∀ n, f n.strip = f n)
    {a b : Node} (h : a.strip = b.strip) (p : Path) : prop f a p = prop f b p := by
  have := get?_map_of_strip_eq f hf h p
  unfold prop
  cases hx : a.get? p <;> cases hy : b.get? p <;> simp_all

theorem linkTest_of_strip_eq {a b : Node} (h : a.strip = b.strip) (p : Path) :
    linkTest a p = linkTest b p := by
  unfold linkTest
  rw [prop_of_strip_eq Node.href Node.href_strip h p]

theorem textTest_of_strip_eq {a b : Node} (h : a.strip = b.strip) (p : Path) :
    textTest a p = textTest b p := by
  unfold textTest
  rw [prop_of_strip_eq Node.textContent Node.textContent_strip h p,
    prop_of_strip_eq Node.alt Node.alt_strip h p]

theorem imgTest_of_strip_eq {a b : Node} (h : a.strip = b.strip) (p : Path) :
    imgTest a p = imgTest b p := by
  unfold imgTest
  rw [prop_of_strip_eq Node.src Node.src_strip h p,
    prop_of_strip_eq Node.alt Node.alt_strip h p]

theorem querySelectorAll_of_strip_eq {a b : Node} (h : a.strip = b.strip) (sel : List String) :
    querySelectorAll a sel = querySelectorAll b sel := by
  unfold querySelectorAll
  have hd : a.descendants = b.descendants := by
    rw [← Node.descendants_strip a, ← Node.descendants_strip b, h]
  rw [hd]
  apply List.filter_congr
  intro p _
  have := get?_map_of_strip_eq Node.tag Node.tag_strip h p
  cases hx : a.get? p <;> cases hy : b.get? p <;> simp_all

theorem styleAt_setCssText (p : Path) : ∀ (n : Node) (css : String) (q : Path),
    styleAt (n.setCssText p css) q
      = if q = p then (styleAt n q).map (fun _ => css) else styleAt n q := by
  induction p with
  | nil =>
    intro n css q
    cases n with
    | text d => cases q <;> simp [Node.setCssText, styleAt, Node.get?, Node.children]
    | elem t h s a st cs =>
      cases q with
      | nil => simp [Node.setCssText, styleAt, Node.get?]
      | cons j q => simp [Node.setCssText, styleAt, Node.get?, Node.children]
  | cons i p ih =>
    intro n css q
    cases n with
    | text d => cases q <;> simp [Node.setCssText, styleAt, Node.get?, Node.children]
    | elem t h s a st cs =>
      simp only [Node.setCssText]
      cases hc : cs[i]? with
      | none =>
        by_cases hq : q = i :: p
        · subst hq
          simp [styleAt, Node.get?, Node.children, hc]
        · simp [hq]
      | some c =>
        cases q with
        | nil => simp [styleAt, Node.get?]
        | cons j q =>
          have hlen : i < cs.length := (List.getElem?_eq_some.mp hc).1
          by_cases hj : i = j
          · subst hj
            have hget : (cs.set i (c.setCssText p css))[i]? = some (c.setCssText p css) := by
              rw [List.getElem?_set]; simp [hlen]
            have := ih c css q
            simp only [styleAt] at this
            simp only [styleAt, Node.get?, Node.children, hget, hc, this, List.cons.injEq,
              true_and]
          · have hget : (cs.set i (c.setCssText p css))[j]? = cs[j]? := by
              rw [List.getElem?_set_ne hj]
            simp [styleAt, Node.get?, Node.children, hget, Ne.symm hj]

theorem strip_forEachStyle (test : Node → Path → Bool) (css : String) (ps : List Path) :
    ∀ dom : Node, (forEachStyle test css ps dom).strip = dom.strip := by
  induction ps with
  | nil => intro dom; rfl
  | cons p ps ih =>
    intro dom
    simp only [forEachStyle, List.foldl_cons]
    have := ih (if test dom p then dom.setCssText p css else dom)
    simp only [forEachStyle] at this
    rw [this]
    split
    · exact Node.strip_setCssText p dom css
    · rfl

theorem styleAt_forEachStyle (test : Node → Path → Bool)
    (htest : ∀ (a b : Node) (p : Path), a.strip = b.strip → test a p = test b p)
    (css : String) (ps : List Path) (q : Path) :
    ∀ dom : Node, styleAt (forEachStyle test css ps dom) q
      = if q ∈ ps ∧ test dom q = true then (styleAt dom q).map (fun _ => css)
        else styleAt dom q := by
  induction ps with
  | nil => intro dom; simp [forEachStyle]
  | cons p ps ih =>
    intro dom
    simp only [forEachStyle, List.foldl_cons]
    have h1 := ih (if test dom p then dom.setCssText p css else dom)
    simp only [forEachStyle] at h1
    rw [h1]
    by_cases htp : test dom p = true
    · have hs : (dom.setCssText p css).strip = dom.strip := Node.strip_setCssText p dom css
      simp only [htp, if_true, htest _ _ q hs, styleAt_setCssText, List.mem_cons]
      by_cases hqp : q = p
      · subst hqp
        simp only [htp, true_or, and_true, if_true]
        split
        · cases styleAt dom q <;> rfl
        · rfl
      · simp [hqp]
    · simp only [htp, List.mem_cons]
      by_cases hqp : q = p
      · subst hqp
        simp [htp]
      · simp [hqp]

mutual
theorem Node.mem_descendants : ∀ (n : Node) (p : Path),
    p ∈ n.descendants ↔ p ≠ [] ∧ ∃ m, n.get? p = some m ∧ m.isElem = true
  | .text d, p => by
    cases p <;> simp [Node.descendants, Node.get?, Node.children]
  | .elem t h s a st cs, p => by
    simp only [Node.descendants]
    rw [mem_descendantsFrom 0 cs p]
    cases p with
    | nil => simp
    | cons i q =>
      simp only [Node.get?, Node.children, zero_add, List.cons.injEq, ne_eq, not_false_eq_true,
        reduceCtorEq, true_and]
      constructor
      · rintro ⟨j, r, c, m, ⟨rfl, rfl⟩, hc, hm, he⟩
        exact ⟨m, by simp [hc, hm], he⟩
      · rintro ⟨m, hm, he⟩
        cases hc : cs[i]? with
        | none => simp [hc] at hm
        | some c =>
          simp only [hc] at hm
          exact ⟨i, q, c, m, ⟨rfl, rfl⟩, hc, hm, he⟩
theorem mem_descendantsFrom : ∀ (i : Nat) (cs : List Node) (p : Path),
    p ∈ descendantsFrom i cs ↔
      ∃ j q c m, p = (i + j) :: q ∧ cs[j]? = some c ∧ c.get? q = some m ∧ m.isElem = true
  | i, [], p => by simp [descendantsFrom]
  | i, c :: cs, p => by
    simp only [descendantsFrom, List.mem_append, List.mem_map]
    rw [mem_descendantsFrom (i + 1) cs p]
    constructor
    · rintro ((h | ⟨q, hq, rfl⟩) | ⟨j, q, c', m, rfl, hc, hm, he⟩)
      · by_cases hce : c.isElem = true
        · simp only [hce, if_true, List.mem_singleton] at h
          subst h
          exact ⟨0, [], c, c, rfl, by simp, rfl, hce⟩
        · simp [hce] at h
      · obtain ⟨_, m, hm, he⟩ := (Node.mem_descendants c q).mp hq
        exact ⟨0, q, c, m, rfl, by simp, hm, he⟩
      · exact ⟨j + 1, q, c', m, by simp [Nat.add_assoc, Nat.add_comm 1 j], by simpa using hc,
          hm, he⟩
    · rintro ⟨j, q, c', m, rfl, hc, hm, he⟩
      cases j with
      | zero =>
        simp only [List.getElem?_cons_zero, Option.some.injEq] at hc
        subst hc
        left
        cases q with
        | nil =>
          left
          simp only [Node.get?, Option.some.injEq] at hm
          subst hm
          simp [he]
        | cons k q =>
          right
          exact ⟨k :: q, (Node.mem_descendants c (k :: q)).mpr ⟨by simp, m, hm, he⟩, rfl⟩
      | succ j =>
        right
        exact ⟨j, q, c', m, by simp [Nat.add_assoc, Nat.add_comm 1 j], by simpa using hc,
          hm, he⟩
end

theorem mem_querySelectorAll (dom : Node) (sel : List String) (p : Path) :
    p ∈ querySelectorAll dom sel ↔
      p ≠ [] ∧ ∃ m, dom.get? p = some m ∧ m.isElem = true ∧ m.tag ∈ sel := by
  simp only [querySelectorAll, List.mem_filter, Node.mem_descendants]
  constructor
  · rintro ⟨⟨hp, m, hm, he⟩, hsel⟩
    refine ⟨hp, m, hm, he, ?_⟩
    simpa [hm] using hsel
  · rintro ⟨hp, m, hm, he, hsel⟩
    exact ⟨⟨hp, m, hm, he⟩, by simpa [hm] using hsel⟩

theorem nested_if (A B C : Prop) [Decidable A] [Decidable B] [Decidable C]
    (s1 s2 s3 x : String) :
    (if A then
        Option.map (fun _ => s3)
          (if B then Option.map (fun _ => s2) (if C then Option.map (fun _ => s1) (some x) else some x)
           else if C then Option.map (fun _ => s1) (some x) else some x)
      else if B then Option.map (fun _ => s2) (if C then Option.map (fun _ => s1) (some x) else some x)
      else if C then Option.map (fun _ => s1) (some x) else some x)
      = some (if A then s3 else if B then s2 else if C then s1 else x) := by
  by_cases hA : A <;> by_cases hB : B <;> by_cases hC : C <;> simp [hA, hB, hC]

theorem finalStyle_eq (n : Node) :
    finalStyle n =
      if n.tag ∈ ["img"] ∧ ((truthy n.src && includes n.src "spline")
          || (truthy n.alt && includes n.alt "Spline")) = true then imgStyle
      else if n.tag ∈ ["div", "span", "p", "a", "img"] ∧
          (includes (strOr (strOr n.textContent n.alt) "") "Built with"
            || includes (strOr (strOr n.textContent n.alt) "") "Spline") = true then textStyle
      else if n.tag ∈ ["a"] ∧ (truthy n.href && includes n.href "spline") = true then linkStyle
      else n.cssText := by
  have e3 : matchesImg n = true ↔ (n.tag ∈ ["img"] ∧ ((truthy n.src && includes n.src "spline")
          || (truthy n.alt && includes n.alt "Spline")) = true) := by
    simp [matchesImg]
  have e2 : matchesText n = true ↔ (n.tag ∈ ["div", "span", "p", "a", "img"] ∧
          (includes (strOr (strOr n.textContent n.alt) "") "Built with"
            || includes (strOr (strOr n.textContent n.alt) "") "Spline") = true) := by
    simp [matchesText]
  have e1 : matchesLink n = true ↔
      (n.tag ∈ ["a"] ∧ (truthy n.href && includes n.href "spline") = true) := by
    simp [matchesLink]
  simp only [finalStyle, e3, e2, e1]

theorem hideWatermark_eq (dom : Node) :
    hideWatermark dom =
      forEachStyle imgTest imgStyle
        (querySelectorAll
          (forEachStyle textTest textStyle
            (querySelectorAll (forEachStyle linkTest linkStyle (querySelectorAll dom ["a"]) dom)
              ["div", "span", "p", "a", "img"])
            (forEachStyle linkTest linkStyle (querySelectorAll dom ["a"]) dom)) ["img"])
        (forEachStyle textTest textStyle
          (querySelectorAll (forEachStyle linkTest linkStyle (querySelectorAll dom ["a"]) dom)
            ["div", "span", "p", "a", "img"])
          (forEachStyle linkTest linkStyle (querySelectorAll dom ["a"]) dom)) := rfl

theorem strip_hideWatermark (dom : Node) : (hideWatermark dom).strip = dom.strip := by
  rw [hideWatermark_eq, strip_forEachStyle, strip_forEachStyle, strip_forEachStyle]

theorem styleAt_eq_of_get? {dom : Node} {q : Path} {n : Node} (h : dom.get? q = some n)
    (he : n.isElem = true) : styleAt dom q = some n.cssText := by
  cases n with
  | text d => simp [Node.isElem] at he
  | elem t hr s a st cs => simp [styleAt, h, Node.cssText]

theorem styleAt_root_hideWatermark (dom : Node) :
    styleAt (hideWatermark dom) [] = styleAt dom [] := by
  have hnil : ∀ (d : Node) (sel : List String), ¬ ([] : Path) ∈ querySelectorAll d sel := by
    intro d sel h
    exact ((mem_querySelectorAll d sel []).mp h).1 rfl
  rw [hideWatermark_eq,
    styleAt_forEachStyle imgTest (fun a b p h => imgTest_of_strip_eq h p),
    styleAt_forEachStyle textTest (fun a b p h => textTest_of_strip_eq h p),
    styleAt_forEachStyle linkTest (fun a b p h => linkTest_of_strip_eq h p)]
  simp [hnil]

theorem styleAt_hideWatermark {dom : Node} {q : Path} {n : Node} (hq : q ≠ [])
    (h : dom.get? q = some n) (he : n.isElem = true) :
    styleAt (hideWatermark dom) q = some (finalStyle n) := by
  have hmem : ∀ (d : Node) (sel : List String), d.strip = dom.strip →
      (q ∈ querySelectorAll d sel ↔ n.tag ∈ sel) := by
    intro d sel hd
    rw [querySelectorAll_of_strip_eq hd sel, mem_querySelectorAll]
    constructor
    · rintro ⟨_, m, hm, _, ht⟩
      rw [h] at hm
      cases hm
      exact ht
    · intro ht
      exact ⟨hq, n, h, he, ht⟩
  have hprop : ∀ f : Node → String, prop f dom q = f n := by
    intro f; simp [prop, h]
  have hl : linkTest dom q = (truthy n.href && includes n.href "spline") := by
    simp only [linkTest, hprop]
  have ht : textTest dom q = (includes (strOr (strOr n.textContent n.alt) "") "Built with"
      || includes (strOr (strOr n.textContent n.alt) "") "Spline") := by
    simp only [textTest, hprop]
  have hi : imgTest dom q = ((truthy n.src && includes n.src "spline")
      || (truthy n.alt && includes n.alt "Spline")) := by
    simp only [imgTest, hprop]
  have s1 := strip_forEachStyle linkTest linkStyle (querySelectorAll dom ["a"]) dom
  have s2 := strip_forEachStyle textTest textStyle
    (querySelectorAll (forEachStyle linkTest linkStyle (querySelectorAll dom ["a"]) dom)
      ["div", "span", "p", "a", "img"])
    (forEachStyle linkTest linkStyle (querySelectorAll dom ["a"]) dom)
  rw [s1] at s2
  rw [hideWatermark_eq,
    styleAt_forEachStyle imgTest (fun a b p h => imgTest_of_strip_eq h p),
    styleAt_forEachStyle textTest (fun a b p h => textTest_of_strip_eq h p),
    styleAt_forEachStyle linkTest (fun a b p h => linkTest_of_strip_eq h p),
    imgTest_of_strip_eq s2 q, textTest_of_strip_eq s1 q, styleAt_eq_of_get? h he, hl, ht, hi]
  simp only [hmem _ ["img"] s2, hmem _ ["div", "span", "p", "a", "img"] s1, hmem _ ["a"] rfl]
  rw [finalStyle_eq]
  exact nested_if _ _ _ _ _ _ _

mutual
theorem Node.ext_strip_style : ∀ (a b : Node), a.strip = b.strip →
    (∀ q, styleAt a q = styleAt b q) → a = b
  | .text d, .text d', hs, _ => by
    simp only [Node.strip, Node.text.injEq] at hs
    rw [hs]
  | .text d, .elem t h s al st cs, hs, _ => by simp [Node.strip] at hs
  | .elem t h s al st cs, .text d, hs, _ => by simp [Node.strip] at hs
  | .elem t h s al st cs, .elem t' h' s' al' st' cs', hs, hst => by
    simp only [Node.strip, Node.elem.injEq] at hs
    obtain ⟨rfl, rfl, rfl, rfl, _, hcs⟩ := hs
    have h0 := hst []
    simp only [styleAt, Node.get?, Option.some.injEq] at h0
    subst h0
    have : cs = cs' := by
      apply list_ext_strip_style cs cs' hcs
      intro i q
      have := hst (i :: q)
      simpa only [styleAt, Node.get?, Node.children] using this
    rw [this]
theorem list_ext_strip_style : ∀ (as bs : List Node), stripList as = stripList bs →
    (∀ (i : Nat) (q : Path),
      (match (match as[i]? with | some c => c.get? q | none => none) with
        | some (.elem _ _ _ _ st _) => some st
        | _ => none)
      = (match (match bs[i]? with | some c => c.get? q | none => none) with
        | some (.elem _ _ _ _ st _) => some st
        | _ => none)) → as = bs
  | [], [], _, _ => rfl
  | [], b :: bs, hs, _ => by simp [stripList] at hs
  | a :: as, [], hs, _ => by simp [stripList] at hs
  | a :: as, b :: bs, hs, hst => by
    simp only [stripList, List.cons.injEq] at hs
    have hab : a = b := by
      apply Node.ext_strip_style a b hs.1
      intro q
      have := hst 0 q
      simpa only [styleAt, List.getElem?_cons_zero] using this
    have hrest : as = bs := by
      apply list_ext_strip_style as bs hs.2
      intro i q
      have := hst (i + 1) q
      simpa only [List.getElem?_cons_succ] using this
    rw [hab, hrest]
end

theorem includes_mono {s t pat : String} (hst : s.data <:+: t.data)
    (h : includes s pat = true) : includes t pat = true := by
  simp only [includes, decide_eq_true_eq] at h ⊢
  exact h.trans hst

theorem textContent_sub_siblings (cs : List Node) : ∀ (i : Nat) (c : Node), cs[i]? = some c →
    c.textContent.data <:+: (textContentList cs).data := by
  induction cs with
  | nil => intro i c h; simp at h
  | cons a as ih =>
    intro i c h
    cases i with
    | zero =>
      simp only [List.getElem?_cons_zero, Option.some.injEq] at h
      subst h
      simp only [textContentList, String.data_append]
      exact (List.prefix_append _ _).isInfix
    | succ i =>
      simp only [List.getElem?_cons_succ] at h
      simp only [textContentList, String.data_append]
      exact (ih i c h).trans (List.suffix_append _ _).isInfix

theorem textContent_sub_node (r : Path) : ∀ (n m : Node), n.get? r = some m →
    m.textContent.data <:+: n.textContent.data := by
  induction r with
  | nil =>
    intro n m h
    simp only [Node.get?, Option.some.injEq] at h
    subst h
    exact List.infix_refl _
  | cons i r ih =>
    intro n m h
    cases n with
    | text d => simp [Node.get?, Node.children] at h
    | elem t hr s a st cs =>
      simp only [Node.get?, Node.children] at h
      cases hc : cs[i]? with
      | none => simp [hc] at h
      | some c =>
        simp only [hc] at h
        simp only [Node.textContent]
        exact (ih c m h).trans (textContent_sub_siblings cs i c hc)

theorem includes_empty_builtWith : includes "" "Built with" = false := by decide

theorem includes_empty_Spline : includes "" "Spline" = false := by decide

theorem includes_empty_spline : includes "" "spline" = false := by decide

theorem strOr_of_ne {a : String} (b : String) (h : a ≠ "") : strOr a b = a := by
  simp [strOr, h]

theorem computeDimensions_frame (vw : ℚ) (s : State) :
    (computeDimensions vw s).loaded = s.loaded ∧
    (computeDimensions vw s).container = s.container ∧
    (computeDimensions vw s).timers = s.timers ∧
    (computeDimensions vw s).nextTimer = s.nextTimer ∧
    (computeDimensions vw s).observing = s.observing ∧
    (computeDimensions vw s).cleanup = s.cleanup ∧
    (computeDimensions vw s).mounted = s.mounted ∧
    (computeDimensions vw s).calls = s.calls := by
  unfold computeDimensions
  split <;> simp

/-- C1: for every viewport width, `computeDimensions` sets the two factors to the reference
definition `(1, 1)` at `vw >= 1024` and `(1 + 0.8 t, 1 - 0.45 t)` with
`t = (1024 - max(vw, 320)) / (1024 - 320)` below; at 1024 this is `(1, 1)`, at 672 it is
`t = 0.5`, multiplier `1.4`, scale `0.775`. -/
theorem computeDimensions_refines_spec :
    (∀ (vw : ℚ) (s : State),
      ((computeDimensions vw s).widthMultiplier, (computeDimensions vw s).visualScale)
        = specDimensions vw) ∧
    (∀ s : State, (computeDimensions 1024 s).widthMultiplier = 1 ∧
      (computeDimensions 1024 s).visualScale = 1) ∧
    (∀ s : State, (1024 - max (672 : ℚ) 320) / (1024 - 320) = 0.5 ∧
      (computeDimensions 672 s).widthMultiplier = 1.4 ∧
      (computeDimensions 672 s).visualScale = 0.775) := by
  refine ⟨?_, ?_, ?_⟩
  · intro vw s
    unfold computeDimensions specDimensions
    split
    · rfl
    · simp only [Prod.mk.injEq]
      constructor <;> ring
  · intro s
    simp [computeDimensions]
  · intro s
    have hmax : max (672 : ℚ) 320 = 672 := by norm_num
    refine ⟨?_, ?_, ?_⟩
    · rw [hmax]; norm_num
    · simp only [computeDimensions]
      rw [if_neg (by norm_num), hmax]
      norm_num
    · simp only [computeDimensions]
      rw [if_neg (by norm_num), hmax]
      norm_num

/-- C2: at viewport width 320, where `t = 1`, `computeDimensions` sets the multiplier to `1.8`,
as its comment says, but the scale to `1 - 0.45 = 0.55`, not to the `0.65` of its comment. -/
theorem computeDimensions_at_320 (s : State) :
    (1024 - max (320 : ℚ) 320) / (1024 - 320) = 1 ∧
    (computeDimensions 320 s).widthMultiplier = 1.8 ∧
    (computeDimensions 320 s).visualScale = 0.55 ∧
    (computeDimensions 320 s).visualScale ≠ 0.65 := by
  have hmax : max (320 : ℚ) 320 = 320 := by norm_num
  have hs : (computeDimensions 320 s).visualScale = 0.55 := by
    simp only [computeDimensions]
    rw [if_neg (by norm_num), hmax]
    norm_num
  refine ⟨?_, ?_, hs, ?_⟩
  · rw [hmax]; norm_num
  · simp only [computeDimensions]
    rw [if_neg (by norm_num), hmax]
    norm_num
  · rw [hs]; norm_num

theorem computeDimensions_values (vw : ℚ) (s : State) :
    (computeDimensions vw s).widthMultiplier
        = 1 + (1024 - min (max vw 320) 1024) / (1024 - 320) * 0.8 ∧
    (computeDimensions vw s).visualScale
        = 1 - (1024 - min (max vw 320) 1024) / (1024 - 320) * 0.45 := by
  unfold computeDimensions
  split
  · rename_i h
    have hm : min (max vw 320) 1024 = 1024 := by
      apply min_eq_right
      exact le_trans h (le_max_left _ _)
    simp [hm]
  · rename_i h
    have h' : vw < 1024 := not_le.mp h
    have hm : min (max vw 320) 1024 = max vw 320 := by
      apply min_eq_left
      exact max_le h'.le (by norm_num)
    simp [hm]

/-- C3: for widths `w1 <= w2` with `320 <= w1` and `w2 <= 1024`, the multiplier computed for
`w2` is at most the one for `w1` and the scale computed for `w2` is at least the one for `w1`,
also across the `vw >= 1024` branch. -/
theorem computeDimensions_monotone (w1 w2 : ℚ) (s1 s2 : State) (h : w1 ≤ w2)
    (_hlo : 320 ≤ w1) (_hhi : w2 ≤ 1024) :
    (computeDimensions w2 s2).widthMultiplier ≤ (computeDimensions w1 s1).widthMultiplier ∧
    (computeDimensions w1 s1).visualScale ≤ (computeDimensions w2 s2).visualScale := by
  obtain ⟨a1, b1⟩ := computeDimensions_values w1 s1
  obtain ⟨a2, b2⟩ := computeDimensions_values w2 s2
  rw [a1, a2, b1, b2]
  have hmono : min (max w1 320) 1024 ≤ min (max w2 320) 1024 :=
    min_le_min (max_le_max h le_rfl) le_rfl
  constructor
  · have : (1024 - min (max w2 320) 1024) / (1024 - 320) * (0.8 : ℚ)
        ≤ (1024 - min (max w1 320) 1024) / (1024 - 320) * 0.8 := by
      apply mul_le_mul_of_nonneg_right _ (by norm_num)
      apply div_le_div_of_nonneg_right _ (by norm_num)
      linarith
    linarith
  · have : (1024 - min (max w2 320) 1024) / (1024 - 320) * (0.45 : ℚ)
        ≤ (1024 - min (max w1 320) 1024) / (1024 - 320) * 0.45 := by
      apply mul_le_mul_of_nonneg_right _ (by norm_num)
      apply div_le_div_of_nonneg_right _ (by norm_num)
      linarith
    linarith

/-- C3 at the two ends of the range: from 320 to 1024 the multiplier does not rise
and the scale does not fall. -/
theorem computeDimensions_monotone_witness :
    (computeDimensions 1024 (fresh none)).widthMultiplier
        ≤ (computeDimensions 320 (fresh none)).widthMultiplier ∧
    (computeDimensions 320 (fresh none)).visualScale
        ≤ (computeDimensions 1024 (fresh none)).visualScale :=
  computeDimensions_monotone 320 1024 (fresh none) (fresh none) (by norm_num) (by norm_num)
    (by norm_num)

theorem includes_nonempty_spline {s : String} (h : includes s "spline" = true) :
    truthy s = true := by
  by_cases hs : s = ""
  · subst hs; rw [includes_empty_spline] at h; cases h
  · simp [truthy, hs]

theorem includes_nonempty_Spline {s : String} (h : includes s "Spline" = true) :
    truthy s = true := by
  by_cases hs : s = ""
  · subst hs; rw [includes_empty_Spline] at h; cases h
  · simp [truthy, hs]

theorem strOr_empty (a : String) : strOr a "" = a := by
  unfold strOr
  split
  · rename_i h; exact h.symm
  · rfl

theorem finalStyle_hidden {n : Node}
    (h : matchesLink n = true ∨ matchesText n = true ∨ matchesImg n = true) :
    finalStyle n = (if matchesImg n then imgStyle else if matchesText n then textStyle
      else linkStyle) := by
  unfold finalStyle
  by_cases h3 : matchesImg n = true
  · simp [h3]
  · by_cases h2 : matchesText n = true
    · simp [h3, h2]
    · have h1 : matchesLink n = true := by
        rcases h with h | h | h
        · exact h
        · exact absurd h h2
        · exact absurd h h3
      simp [h3, h2, h1]

/-- C4, as stated, fails: an image whose alt text contains "spline" and a button whose text is
"Built with Spline" both satisfy the specified heuristics, and one run of `hideWatermark`
leaves the inline style of each empty. -/
theorem hideWatermark_misses_specified_heuristics :
    (prop Node.tag lowerCaseAltDom [0] = "img" ∧
      includes (prop Node.alt lowerCaseAltDom [0]) "spline" = true ∧
      styleAt (hideWatermark lowerCaseAltDom) [0] = some "") ∧
    (prop Node.tag buttonDom [0] = "button" ∧
      includes (prop Node.textContent buttonDom [0]) "Built with" = true ∧
      includes (prop Node.textContent buttonDom [0]) "Spline" = true ∧
      styleAt (hideWatermark buttonDom) [0] = some "") := by
  refine ⟨⟨by decide, by decide, by decide⟩, by decide, by decide, by decide, by decide⟩

/-- C4, amended: after one run of `hideWatermark` an element strictly inside the container has
`display:none!important` in its inline style whenever it is an anchor whose href contains
"spline"; or a div, span, p, a or img whose text (its text content, or its alt text when the
text content is empty) contains "Built with" or "Spline"; or an image whose src contains
"spline" or whose alt text contains "Spline". -/
theorem hideWatermark_hides_matching (dom : Node) (q : Path) (n : Node) (hq : q ≠ [])
    (hn : dom.get? q = some n) (he : n.isElem = true)
    (hmatch :
      (n.tag = "a" ∧ includes n.href "spline" = true) ∨
      (n.tag ∈ ["div", "span", "p", "a", "img"] ∧
        (includes (strOr n.textContent n.alt) "Built with" = true ∨
          includes (strOr n.textContent n.alt) "Spline" = true)) ∨
      (n.tag = "img" ∧ (includes n.src "spline" = true ∨ includes n.alt "Spline" = true))) :
    ∃ st, styleAt (hideWatermark dom) q = some st ∧
      includes st "display:none!important" = true := by
  have hm : matchesLink n = true ∨ matchesText n = true ∨ matchesImg n = true := by
    rcases hmatch with ⟨ht, hh⟩ | ⟨ht, hh⟩ | ⟨ht, hh⟩
    · left
      simp [matchesLink, ht, hh, includes_nonempty_spline hh]
    · right; left
      simp only [matchesText, strOr_empty, Bool.and_eq_true, Bool.or_eq_true]
      exact ⟨by simpa using ht, hh⟩
    · right; right
      simp only [matchesImg, Bool.and_eq_true, Bool.or_eq_true, decide_eq_true_eq]
      refine ⟨ht, ?_⟩
      rcases hh with hh | hh
      · exact Or.inl ⟨includes_nonempty_spline hh, hh⟩
      · exact Or.inr ⟨includes_nonempty_Spline hh, hh⟩
  refine ⟨finalStyle n, styleAt_hideWatermark hq hn he, ?_⟩
  rw [finalStyle_hidden hm]
  split
  · decide
  · split <;> decide

/-- C4, amended, on the vendor's watermark link. -/
theorem hideWatermark_hides_matching_witness :
    ∃ st, styleAt (hideWatermark watermarkDom) [0] = some st ∧
      includes st "display:none!important" = true :=
  hideWatermark_hides_matching watermarkDom [0]
    (.elem "a" "https://spline.design" "" "" "" [.text "Built with Spline"])
    (by decide) rfl rfl (Or.inl ⟨rfl, by decide⟩)

/-- C5, as stated, fails: an image matched by the image test ends with `display:none!important;`
alone, without opacity, visibility, width or height; and the watermark link, matched by the
anchor test and by the text test, ends with the style of the text pass, without width or
height. -/
theorem hideWatermark_partial_style :
    (matchesImg (.elem "img" "" "https://prod.spline.design/logo.png" "" "" []) = true ∧
      styleAt (hideWatermark vendorImageDom) [0] = some "display:none!important;" ∧
      includes "display:none!important;" "opacity:0!important" = false ∧
      includes "display:none!important;" "visibility:hidden!important" = false ∧
      includes "display:none!important;" "width:0!important" = false) ∧
    (matchesLink (.elem "a" "https://spline.design" "" "" "" [.text "Built with Spline"]) = true ∧
      styleAt (hideWatermark watermarkDom) [0] = some textStyle ∧
      includes textStyle "width:0!important" = false ∧
      includes textStyle "height:0!important" = false) := by
  refine ⟨⟨by decide, by decide, by decide, by decide, by decide⟩,
    by decide, by decide, by decide, by decide⟩

/-- C5, amended: an element strictly inside the container that at least one of the three tests
matches has, after the complete sweep, exactly the style of the last pass that matched it: the
image style when the image test matched, else the text style when the text test matched, else
the link style. Each of them forces display to none with `!important`; opacity 0 and visibility
hidden are forced when the image test did not match; width and height 0 are forced when the
anchor test alone matched. -/
theorem hideWatermark_style_of_matching (dom : Node) (q : Path) (n : Node) (hq : q ≠ [])
    (hn : dom.get? q = some n) (he : n.isElem = true)
    (hm : matchesLink n = true ∨ matchesText n = true ∨ matchesImg n = true) :
    ∃ st, styleAt (hideWatermark dom) q = some st ∧
      st = (if matchesImg n then imgStyle else if matchesText n then textStyle
        else linkStyle) ∧
      includes st "display:none!important" = true ∧
      (matchesImg n = false →
        includes st "opacity:0!important" = true ∧
        includes st "visibility:hidden!important" = true) ∧
      (matchesImg n = false → matchesText n = false →
        includes st "width:0!important" = true ∧
        includes st "height:0!important" = true) := by
  refine ⟨finalStyle n, styleAt_hideWatermark hq hn he, finalStyle_hidden hm, ?_⟩
  rw [finalStyle_hidden hm]
  by_cases h3 : matchesImg n = true
  · simp only [h3, if_true]
    refine ⟨by decide, ?_, ?_⟩ <;> intro h <;> cases h
  · by_cases h2 : matchesText n = true
    · simp only [h3, h2, if_true, if_false]
      refine ⟨by decide, fun _ => ⟨by decide, by decide⟩, ?_⟩
      intro _ h; cases h
    · simp only [h3, h2, if_false]
      exact ⟨by decide, fun _ => ⟨by decide, by decide⟩, fun _ _ => ⟨by decide, by decide⟩⟩

/-- C5, amended, on an image served by the vendor. -/
theorem hideWatermark_style_of_matching_witness :
    ∃ st, styleAt (hideWatermark vendorImageDom) [0] = some st ∧
      st = (if matchesImg (.elem "img" "" "https://prod.spline.design/logo.png" "" "" [])
          then imgStyle
        else if matchesText (.elem "img" "" "https://prod.spline.design/logo.png" "" "" [])
          then textStyle
        else linkStyle) ∧
      includes st "display:none!important" = true ∧
      (matchesImg (.elem "img" "" "https://prod.spline.design/logo.png" "" "" []) = false →
        includes st "opacity:0!important" = true ∧
        includes st "visibility:hidden!important" = true) ∧
      (matchesImg (.elem "img" "" "https://prod.spline.design/logo.png" "" "" []) = false →
        matchesText (.elem "img" "" "https://prod.spline.design/logo.png" "" "" []) = false →
        includes st "width:0!important" = true ∧
        includes st "height:0!important" = true) :=
  hideWatermark_style_of_matching vendorImageDom [0]
    (.elem "img" "" "https://prod.spline.design/logo.png" "" "" []) (by decide) rfl rfl
    (Or.inr (Or.inr (by decide)))

theorem styleAt_none_of_strip_eq {a b : Node} (h : a.strip = b.strip) (q : Path)
    (hb : ∀ n, b.get? q = some n → n.isElem = false) : styleAt a q = none := by
  have hmap := get?_map_of_strip_eq Node.isElem Node.isElem_strip h q
  unfold styleAt
  cases ha : a.get? q with
  | none => rfl
  | some m =>
    cases m with
    | text d => rfl
    | elem t hr s al st cs =>
      rw [ha] at hmap
      cases hbq : b.get? q with
      | none => rw [hbq] at hmap; simp at hmap
      | some n =>
        rw [hbq] at hmap
        have := hb n hbq
        simp only [Option.map_some', Option.some.injEq] at hmap
        rw [this] at hmap
        simp [Node.isElem] at hmap

theorem get?_of_strip_eq {a b : Node} (h : a.strip = b.strip) {q : Path} {n : Node}
    (hb : b.get? q = some n) : ∃ m, a.get? q = some m ∧ m.strip = n.strip := by
  have ha := Node.get?_strip q a
  rw [h, Node.get?_strip q b, hb] at ha
  cases hq : a.get? q with
  | none => rw [hq] at ha; simp at ha
  | some m =>
    rw [hq] at ha
    simp only [Option.map_some', Option.some.injEq] at ha
    exact ⟨m, rfl, ha.symm⟩

theorem matches_of_strip_eq {m n : Node} (h : m.strip = n.strip) :
    matchesLink m = matchesLink n ∧ matchesText m = matchesText n ∧
      matchesImg m = matchesImg n := by
  have ht : m.tag = n.tag := by rw [← Node.tag_strip m, ← Node.tag_strip n, h]
  have hh : m.href = n.href := by rw [← Node.href_strip m, ← Node.href_strip n, h]
  have hs : m.src = n.src := by rw [← Node.src_strip m, ← Node.src_strip n, h]
  have ha : m.alt = n.alt := by rw [← Node.alt_strip m, ← Node.alt_strip n, h]
  have hx : m.textContent = n.textContent := by
    rw [← Node.textContent_strip m, ← Node.textContent_strip n, h]
  simp only [matchesLink, matchesText, matchesImg, ht, hh, hs, ha, hx, and_self]

theorem finalStyle_unmatched {n : Node} (h1 : matchesLink n = false)
    (h2 : matchesText n = false) (h3 : matchesImg n = false) : finalStyle n = n.cssText := by
  simp [finalStyle, h1, h2, h3]

/-- C6: `hideWatermark` changes nothing but inline styles (with every style erased, the
container is the same tree before and after: the same elements with the same tags, text, href,
src and alt), and an element that none of the three tests matches has the same inline style
after the sweep as before it; so has the container itself. -/
theorem hideWatermark_frame (dom : Node) :
    (hideWatermark dom).strip = dom.strip ∧
    ∀ q : Path,
      (q = [] ∨ ∀ n, dom.get? q = some n →
        matchesLink n = false ∧ matchesText n = false ∧ matchesImg n = false) →
      styleAt (hideWatermark dom) q = styleAt dom q := by
  refine ⟨strip_hideWatermark dom, ?_⟩
  intro q hq
  by_cases hnil : q = []
  · subst hnil; exact styleAt_root_hideWatermark dom
  · have hun := hq.resolve_left hnil
    cases hn : dom.get? q with
    | none =>
      rw [styleAt_none_of_strip_eq (strip_hideWatermark dom) q (by simp [hn])]
      simp [styleAt, hn]
    | some n =>
      cases he : n.isElem with
      | false =>
        rw [styleAt_none_of_strip_eq (strip_hideWatermark dom) q
          (by intro m hm; rw [hn] at hm; cases hm; exact he)]
        cases n with
        | text d => simp [styleAt, hn]
        | elem _ _ _ _ _ _ => simp [Node.isElem] at he
      | true =>
        obtain ⟨h1, h2, h3⟩ := hun n hn
        rw [styleAt_hideWatermark hnil hn he, finalStyle_unmatched h1 h2 h3,
          styleAt_eq_of_get? hn he]

/-- C6 on the spinner next to a watermark: no test matches the spinner, its style is kept. -/
theorem hideWatermark_frame_witness :
    styleAt (hideWatermark spinnerDom) [0] = styleAt spinnerDom [0] :=
  (hideWatermark_frame spinnerDom).2 [0] (Or.inr (by
    intro n hn
    have : n = .elem "div" "" "" "" "color:red" [.text "Loading 3D"] := by
      have h : spinnerDom.get? [0]
          = some (.elem "div" "" "" "" "color:red" [.text "Loading 3D"]) := rfl
      rw [h] at hn
      exact (Option.some.inj hn).symm
    subst this
    exact ⟨by decide, by decide, by decide⟩))

theorem styleAt_hideWatermark_twice (dom : Node) (q : Path) :
    styleAt (hideWatermark (hideWatermark dom)) q = styleAt (hideWatermark dom) q := by
  by_cases hnil : q = []
  · subst hnil; rw [styleAt_root_hideWatermark]
  · cases hn : dom.get? q with
    | none =>
      have h2 : (hideWatermark (hideWatermark dom)).strip = dom.strip := by
        rw [strip_hideWatermark, strip_hideWatermark]
      rw [styleAt_none_of_strip_eq h2 q (by simp [hn]),
        styleAt_none_of_strip_eq (strip_hideWatermark dom) q (by simp [hn])]
    | some n =>
      cases he : n.isElem with
      | false =>
        have h2 : (hideWatermark (hideWatermark dom)).strip = dom.strip := by
          rw [strip_hideWatermark, strip_hideWatermark]
        have hb : ∀ m, dom.get? q = some m → m.isElem = false := by
          intro m hm; rw [hn] at hm; cases hm; exact he
        rw [styleAt_none_of_strip_eq h2 q hb,
          styleAt_none_of_strip_eq (strip_hideWatermark dom) q hb]
      | true =>
        obtain ⟨m, hm, hms⟩ := get?_of_strip_eq (strip_hideWatermark dom) hn
        have hme : m.isElem = true := by
          rw [← Node.isElem_strip m, hms, Node.isElem_strip n, he]
        have h1 := styleAt_hideWatermark hnil hn he
        have hcss : m.cssText = finalStyle n := by
          rw [styleAt_eq_of_get? hm hme] at h1
          exact Option.some.inj h1
        obtain ⟨e1, e2, e3⟩ := matches_of_strip_eq hms
        rw [styleAt_hideWatermark hnil hm hme, h1]
        congr 1
        simp only [finalStyle, e1, e2, e3, hcss]
        split
        · rfl
        · split
          · rfl
          · split <;> rfl

/-- C9: `hideWatermark` is idempotent: running the sweep twice in succession yields the same
container, with the same inline style on every element, as running it once. -/
theorem hideWatermark_idempotent (dom : Node) :
    hideWatermark (hideWatermark dom) = hideWatermark dom :=
  Node.ext_strip_style _ _ (by rw [strip_hideWatermark]) (styleAt_hideWatermark_twice dom)

/-- C10: when a text node below an element contains "Built with" or "Spline", and that element
is a div, span, p or a strictly inside the container, the sweep gives the element the style of
the text pass (display none, opacity 0, visibility hidden); the container itself keeps its
style. -/
theorem hideWatermark_hides_ancestors :
    (∀ (dom : Node) (q : Path) (n : Node) (r : Path) (d : String),
      q ≠ [] → dom.get? q = some n → n.tag ∈ ["div", "span", "p", "a"] →
      n.get? r = some (.text d) →
      (includes d "Built with" = true ∨ includes d "Spline" = true) →
      styleAt (hideWatermark dom) q = some textStyle) ∧
    (∀ dom : Node, styleAt (hideWatermark dom) [] = styleAt dom []) := by
  refine ⟨?_, styleAt_root_hideWatermark⟩
  intro dom q n r d hq hn htag hr hd
  have he : n.isElem = true := by
    cases n with
    | text _ => simp [Node.tag] at htag
    | elem _ _ _ _ _ _ => rfl
  have hinf : d.data <:+: n.textContent.data := by
    have := textContent_sub_node r n (.text d) hr
    simpa [Node.textContent] using this
  have hinc : includes n.textContent "Built with" = true ∨
      includes n.textContent "Spline" = true := by
    rcases hd with h | h
    · exact Or.inl (includes_mono hinf h)
    · exact Or.inr (includes_mono hinf h)
  have hne : n.textContent ≠ "" := by
    intro h0
    rw [h0, includes_empty_builtWith, includes_empty_Spline] at hinc
    rcases hinc with h | h <;> cases h
  have h3 : matchesImg n = false := by
    have : n.tag ≠ "img" := by
      intro h
      rw [h] at htag
      revert htag
      decide
    simp [matchesImg, this]
  have h2 : matchesText n = true := by
    simp only [matchesText, strOr_empty, strOr_of_ne _ hne, Bool.and_eq_true, Bool.or_eq_true]
    refine ⟨?_, hinc⟩
    simp only [List.mem_cons, List.mem_singleton, List.not_mem_nil, or_false] at htag
    rcases htag with h | h | h | h <;> rw [h] <;> decide
  rw [styleAt_hideWatermark hq hn he]
  simp [finalStyle, h3, h2]

/-- C10 on a div whose grandchild holds the branding text. -/
theorem hideWatermark_hides_ancestors_witness :
    styleAt (hideWatermark nestedDom) [0] = some textStyle :=
  hideWatermark_hides_ancestors.1 nestedDom [0]
    (.elem "div" "" "" "" ""
      [.elem "canvas" "" "" "" "" [],
       .elem "span" "" "" "" "" [.elem "b" "" "" "" "" [.text "Built with Spline"]]])
    [1, 0, 0] "Built with Spline" (by decide) rfl (by decide) rfl (Or.inl (by decide))

theorem runHideWatermark_frame (s : State) :
    (runHideWatermark s).loaded = s.loaded ∧
    (runHideWatermark s).widthMultiplier = s.widthMultiplier ∧
    (runHideWatermark s).visualScale = s.visualScale ∧
    (runHideWatermark s).timers = s.timers ∧
    (runHideWatermark s).nextTimer = s.nextTimer ∧
    (runHideWatermark s).observing = s.observing ∧
    (runHideWatermark s).cleanup = s.cleanup ∧
    (runHideWatermark s).mounted = s.mounted ∧
    (runHideWatermark s).calls = s.calls + 1 := by
  unfold runHideWatermark
  split <;> simp

theorem Cleanup.run_frame (c : Cleanup) (s : State) :
    (c.run s).loaded = s.loaded ∧
    (c.run s).widthMultiplier = s.widthMultiplier ∧
    (c.run s).visualScale = s.visualScale ∧
    (c.run s).container = s.container ∧
    (c.run s).observing = false ∧
    (c.run s).mounted = s.mounted ∧
    (c.run s).calls = s.calls ∧
    (c.run s).timers = ((s.timers.filter fun t => t.id ≠ c.timer1).filter
      fun t => t.id ≠ c.timer2).filter fun t => t.id ≠ c.timer3 := by
  simp [Cleanup.run, clearTimeout]

theorem runCleanup_frame (s : State) :
    (runCleanup s).loaded = s.loaded ∧
    (runCleanup s).widthMultiplier = s.widthMultiplier ∧
    (runCleanup s).visualScale = s.visualScale ∧
    (runCleanup s).container = s.container ∧
    (runCleanup s).mounted = s.mounted ∧
    (runCleanup s).calls = s.calls ∧
    (runCleanup s).cleanup = none := by
  unfold runCleanup
  split
  · rename_i h; simp [h]
  · rename_i c h
    obtain ⟨h1, h2, h3, h4, _, h6, h7, _⟩ := c.run_frame s
    simp [h1, h2, h3, h4, h6, h7]

theorem loadedEffect_loaded (s : State) : (loadedEffect s).1.loaded = s.loaded := by
  unfold loadedEffect
  split
  · rfl
  · simp [setTimeout, (runHideWatermark_frame s).1]

theorem rerunLoadedEffect_loaded (s : State) : (rerunLoadedEffect s).loaded = s.loaded := by
  simp [rerunLoadedEffect, loadedEffect_loaded, (runCleanup_frame s).1]

theorem step_loaded (s : State) (e : Event) :
    (step s e).loaded = (s.loaded || (match e with | .load => s.mounted | _ => false)) := by
  cases e with
  | load =>
    simp only [step]
    split
    · rename_i h
      simp only [Bool.and_eq_true, Bool.not_eq_true'] at h
      simp [rerunLoadedEffect_loaded, h.1]
    · rename_i h
      simp only [Bool.and_eq_true, Bool.not_eq_true', not_and, Bool.not_eq_false] at h
      cases hm : s.mounted
      · simp
      · simp [h hm]
  | resize vw =>
    simp only [step]
    split
    · simp [(computeDimensions_frame vw s).1]
    · simp
  | timeout id =>
    simp only [step]
    split
    · simp [(runHideWatermark_frame _).1]
    · simp
  | mutation dom =>
    simp only [step]
    split
    · simp [(runHideWatermark_frame _).1]
    · simp
  | unmount => simp [step, (runCleanup_frame s).1]

theorem run_loaded (es : List Event) : ∀ s : State, s.loaded = true →
    (run s es).loaded = true := by
  induction es with
  | nil => intro s h; exact h
  | cons e es ih =>
    intro s h
    simp only [run, List.foldl_cons]
    apply ih
    rw [step_loaded, h]
    rfl

/-- C8: `loaded` is a one-way latch. It is false when the component mounts; the load callback
sets it to true; once true it is true after every sequence of events (load, resize, timer,
mutation, unmount); and a resize changes the two factors and nothing else. -/
theorem loaded_is_latch :
    (∀ (c : Option Node) (vw : ℚ), (mount c vw).loaded = false) ∧
    (∀ s : State, s.mounted = true → (step s .load).loaded = true) ∧
    (∀ (s : State) (es : List Event), s.loaded = true → (run s es).loaded = true) ∧
    (∀ (s : State) (vw : ℚ),
      (step s (.resize vw)).loaded = s.loaded ∧
      (step s (.resize vw)).container = s.container ∧
      (step s (.resize vw)).timers = s.timers ∧
      (step s (.resize vw)).nextTimer = s.nextTimer ∧
      (step s (.resize vw)).observing = s.observing ∧
      (step s (.resize vw)).cleanup = s.cleanup ∧
      (step s (.resize vw)).mounted = s.mounted ∧
      (step s (.resize vw)).calls = s.calls) := by
  refine ⟨?_, ?_, ?_, ?_⟩
  · intro c vw
    simp only [mount, rerunLoadedEffect_loaded, (computeDimensions_frame _ _).1]
    rfl
  · intro s hm
    rw [step_loaded, hm]
    simp
  · intro s es h
    exact run_loaded es s h
  · intro s vw
    simp only [step]
    split
    · exact computeDimensions_frame vw s
    · simp

/-- C8 on a run: after loading, a resize, two timers, a mutation and an unmount leave `loaded`
true. -/
theorem loaded_is_latch_witness :
    (step (mount (some watermarkDom) 500) .load).loaded = true ∧
    (run (step (mount (some watermarkDom) 500) .load)
      [.resize 400, .timeout 0, .mutation spinnerDom, .timeout 2, .unmount, .load]).loaded
        = true :=
  ⟨loaded_is_latch.2.1 (mount (some watermarkDom) 500) (by decide),
    loaded_is_latch.2.2.1 (step (mount (some watermarkDom) 500) .load) _ (by decide)⟩

theorem loadedEffect_acquire (s : State) (dom : Node) (hl : s.loaded = true)
    (hc : s.container = some dom) :
    loadedEffect s =
      ({ s with
          container := some (hideWatermark dom)
          calls := s.calls + 1
          timers := s.timers ++ [⟨s.nextTimer, 1000⟩, ⟨s.nextTimer + 1, 3000⟩,
            ⟨s.nextTimer + 2, 5000⟩]
          nextTimer := s.nextTimer + 3
          observing := true },
        some ⟨s.nextTimer, s.nextTimer + 1, s.nextTimer + 2⟩) := by
  simp [loadedEffect, hl, hc, runHideWatermark, setTimeout]

theorem loadedEffect_idle (s : State) (h : s.loaded = false ∨ s.container = none) :
    loadedEffect s = (s, none) := by
  unfold loadedEffect
  rcases h with h | h <;> simp [h]

theorem filter_timers_nil (ts : List Timer) (c : Cleanup)
    (h : ∀ t ∈ ts, t.id = c.timer1 ∨ t.id = c.timer2 ∨ t.id = c.timer3) :
    ((ts.filter fun t => t.id ≠ c.timer1).filter fun t => t.id ≠ c.timer2).filter
      (fun t => t.id ≠ c.timer3) = [] := by
  rw [List.filter_filter, List.filter_filter, List.filter_eq_nil_iff]
  intro t ht
  have := h t ht
  simp only [ne_eq, Bool.and_eq_true, decide_eq_true_eq, not_and, Decidable.not_not]
  rintro ⟨h3, h2⟩
  rcases this with h1 | h2' | h3'
  · exact h1
  · exact absurd h2' h2
  · exact absurd h3' h3

theorem runCleanup_released (s : State) (h : Acquired s) : Released (runCleanup s) := by
  obtain ⟨hl, hc⟩ := h
  unfold runCleanup
  cases hcl : s.cleanup with
  | none =>
    rw [hcl] at hc
    exact ⟨hl, hc.1, hc.2⟩
  | some c =>
    rw [hcl] at hc
    obtain ⟨h1, _, _, _, h5, _, _, h8⟩ := c.run_frame s
    refine ⟨by simpa using h1.trans hl, ?_, by simpa using h5⟩
    simp only [h8]
    exact filter_timers_nil s.timers c hc

theorem rerunLoadedEffect_acquired (s : State) (dom : Node) (hl : s.loaded = true)
    (hc : s.container = some dom) (ht : s.timers = []) (_ho : s.observing = false) :
    Acquired (rerunLoadedEffect s) := by
  have hl' : (runCleanup s).loaded = true := (runCleanup_frame s).1.trans hl
  have hc' : (runCleanup s).container = some dom := (runCleanup_frame s).2.2.2.1.trans hc
  have ht' : (runCleanup s).timers = [] := by
    unfold runCleanup
    split
    · exact ht
    · simp [Cleanup.run, clearTimeout, ht]
  unfold rerunLoadedEffect
  rw [loadedEffect_acquire (runCleanup s) dom hl' hc']
  refine ⟨hl', ?_⟩
  simp only [ht', List.nil_append, List.mem_cons, List.mem_singleton, List.not_mem_nil,
    or_false]
  rintro t (rfl | rfl | rfl) <;> simp

theorem step_acquired (s : State) (e : Event) (h : Acquired s) : Acquired (step s e) := by
  obtain ⟨hl, hc⟩ := h
  cases e with
  | load =>
    simp only [step, hl, Bool.not_true, Bool.and_false]
    exact ⟨hl, hc⟩
  | resize vw =>
    simp only [step]
    split
    · obtain ⟨h1, _, h3, _, h5, h6, _, _⟩ := computeDimensions_frame vw s
      refine ⟨h1.trans hl, ?_⟩
      rw [h6, h3, h5]
      exact hc
    · exact ⟨hl, hc⟩
  | timeout id =>
    simp only [step]
    split
    · obtain ⟨h1, _, _, h4, _, h6, h7, _, _⟩ :=
        runHideWatermark_frame { s with timers := s.timers.filter fun t => t.id ≠ id }
      refine ⟨h1.trans hl, ?_⟩
      rw [h7, h4, h6]
      cases hcl : s.cleanup with
      | none =>
        rw [hcl] at hc
        simp [hc.1, hc.2]
      | some c =>
        rw [hcl] at hc
        intro t ht
        exact hc t (List.mem_of_mem_filter ht)
    · exact ⟨hl, hc⟩
  | mutation dom =>
    simp only [step]
    split
    · obtain ⟨h1, _, _, h4, _, h6, h7, _, _⟩ :=
        runHideWatermark_frame { s with container := s.container.map fun _ => dom }
      refine ⟨h1.trans hl, ?_⟩
      rw [h7, h4, h6]
      exact hc
    · exact ⟨hl, hc⟩
  | unmount =>
    simp only [step]
    obtain ⟨r1, r2, r3⟩ := runCleanup_released s ⟨hl, hc⟩
    refine ⟨r1, ?_⟩
    simp only [(runCleanup_frame s).2.2.2.2.2.2]
    exact ⟨r2, r3⟩

theorem run_acquired (es : List Event) : ∀ s : State, Acquired s → Acquired (run s es) := by
  induction es with
  | nil => intro s h; exact h
  | cons e es ih =>
    intro s h
    simp only [run, List.foldl_cons]
    exact ih _ (step_acquired s e h)

theorem runCleanup_of_released (s : State) (h : Released s) :
    Released (runCleanup s) ∧ (runCleanup s).calls = s.calls ∧
      (runCleanup s).container = s.container := by
  obtain ⟨hl, ht, ho⟩ := h
  refine ⟨?_, (runCleanup_frame s).2.2.2.2.2.1, (runCleanup_frame s).2.2.2.1⟩
  refine ⟨(runCleanup_frame s).1.trans hl, ?_, ?_⟩
  · unfold runCleanup
    split
    · exact ht
    · simp [Cleanup.run, clearTimeout, ht]
  · unfold runCleanup
    split
    · exact ho
    · simp [Cleanup.run]

theorem step_released (s : State) (e : Event) (h : Released s) :
    Released (step s e) ∧ (step s e).calls = s.calls ∧
      (step s e).container = external s.container e := by
  obtain ⟨hl, ht, ho⟩ := h
  cases e with
  | load =>
    simp only [step, hl, Bool.not_true, Bool.and_false, external]
    exact ⟨⟨hl, ht, ho⟩, rfl, rfl⟩
  | resize vw =>
    simp only [step, external]
    split
    · obtain ⟨h1, h2, h3, _, h5, _, _, h8⟩ := computeDimensions_frame vw s
      exact ⟨⟨h1.trans hl, h3.trans ht, h5.trans ho⟩, h8, h2⟩
    · exact ⟨⟨hl, ht, ho⟩, rfl, rfl⟩
  | timeout id =>
    simp only [step, ht, List.any_nil, external]
    exact ⟨⟨hl, ht, ho⟩, rfl, rfl⟩
  | mutation dom =>
    simp only [step, external]
    rw [if_neg (by simp [ho])]
    exact ⟨⟨hl, ht, ho⟩, rfl, rfl⟩
  | unmount =>
    simp only [step, external]
    obtain ⟨⟨r1, r2, r3⟩, r4, _⟩ := runCleanup_of_released s ⟨hl, ht, ho⟩
    exact ⟨⟨r1, r2, r3⟩, r4, trivial⟩

theorem run_released (es : List Event) : ∀ s : State, Released s →
    Released (run s es) ∧ (run s es).calls = s.calls ∧
      (run s es).container = es.foldl external s.container := by
  induction es with
  | nil => intro s h; exact ⟨h, rfl, rfl⟩
  | cons e es ih =>
    intro s h
    obtain ⟨h1, h2, h3⟩ := step_released s e h
    obtain ⟨i1, i2, i3⟩ := ih (step s e) h1
    simp only [run, List.foldl_cons] at i1 i2 i3 ⊢
    exact ⟨i1, i2.trans h2, by rw [i3, h3]⟩

/-- C7: run with `loaded` true and a bound container, the loaded-effect sweeps once, schedules
exactly three timers (1000, 3000, 5000 ms), connects the observer and returns their cleanup.
Whatever happens in between, the cleanup leaves no timer pending and the observer
disconnected, and from then on no event invokes `hideWatermark`: the container changes by
outside mutations only. Run with `loaded` false or without a container, the effect acquires
nothing. -/
theorem loadedEffect_acquires_and_releases :
    (∀ (s : State) (dom : Node), s.loaded = true → s.container = some dom →
      loadedEffect s =
        ({ s with
            container := some (hideWatermark dom)
            calls := s.calls + 1
            timers := s.timers ++ [⟨s.nextTimer, 1000⟩, ⟨s.nextTimer + 1, 3000⟩,
              ⟨s.nextTimer + 2, 5000⟩]
            nextTimer := s.nextTimer + 3
            observing := true },
          some ⟨s.nextTimer, s.nextTimer + 1, s.nextTimer + 2⟩)) ∧
    (∀ (s : State) (dom : Node) (es es' : List Event),
      s.loaded = true → s.container = some dom → s.timers = [] → s.observing = false →
      (runCleanup (run (rerunLoadedEffect s) es)).timers = [] ∧
      (runCleanup (run (rerunLoadedEffect s) es)).observing = false ∧
      (run (runCleanup (run (rerunLoadedEffect s) es)) es').timers = [] ∧
      (run (runCleanup (run (rerunLoadedEffect s) es)) es').observing = false ∧
      (run (runCleanup (run (rerunLoadedEffect s) es)) es').calls
        = (runCleanup (run (rerunLoadedEffect s) es)).calls ∧
      (run (runCleanup (run (rerunLoadedEffect s) es)) es').container
        = es'.foldl external (runCleanup (run (rerunLoadedEffect s) es)).container) ∧
    (∀ s : State, s.loaded = false ∨ s.container = none → loadedEffect s = (s, none)) := by
  refine ⟨loadedEffect_acquire, ?_, loadedEffect_idle⟩
  intro s dom es es' hl hc ht ho
  have hrel : Released (runCleanup (run (rerunLoadedEffect s) es)) :=
    runCleanup_released _ (run_acquired es _ (rerunLoadedEffect_acquired s dom hl hc ht ho))
  obtain ⟨⟨_, r2, r3⟩, r4, r5⟩ := run_released es' _ hrel
  exact ⟨hrel.2.1, hrel.2.2, r2, r3, r4, r5⟩

/-- C7 on a run: one timer fires and the subtree changes before the cleanup; afterwards the
other timers and a further mutation find nothing to call. -/
theorem loadedEffect_acquires_and_releases_witness :
    (loadedEffect loadedState).1.timers = [⟨0, 1000⟩, ⟨1, 3000⟩, ⟨2, 5000⟩] ∧
    (run (runCleanup (run (rerunLoadedEffect loadedState) [.timeout 0, .mutation spinnerDom]))
      [.timeout 1, .mutation watermarkDom, .timeout 2]).calls
      = (runCleanup (run (rerunLoadedEffect loadedState)
          [.timeout 0, .mutation spinnerDom])).calls ∧
    loadedEffect (fresh (some watermarkDom)) = (fresh (some watermarkDom), none) :=
  ⟨by
    rw [loadedEffect_acquires_and_releases.1 loadedState watermarkDom rfl rfl]
    rfl,
   (loadedEffect_acquires_and_releases.2.1 loadedState watermarkDom
      [.timeout 0, .mutation spinnerDom] [.timeout 1, .mutation watermarkDom, .timeout 2]
      rfl rfl rfl rfl).2.2.2.2.1,
   loadedEffect_acquires_and_releases.2.2 (fresh (some watermarkDom)) (Or.inl rfl)⟩

end SplineScene
